import Mathlib

/-!
Verification of the Jason JSON parser (src/JasonParser.h) against its
natural-language specification.

The parser is embedded shallowly: the C++ member functions become Lean
functions threading an explicit parser state `PState` (input buffer, read
cursor, builder).  Exceptions become the `Res.thrown` result; the unchecked
`--_pos` in `unconsume` is instrumented as `Res.uf`; unbounded loops take an
explicit fuel argument and return `Res.nofuel` when it runs out (a totality
device only, never reachable with the fuel the top-level entry points pass).

`JasonBuilder.h` and `JasonAsm.h` are not part of src/; the builder emit
operations and the two assembler scanners are modelled from the spec (each
such definition carries a doc comment starting `Modelled from the spec:`).
C++ `double` is modelled by exact rationals: the claims under study concern
integer thresholds, byte layout and error paths, never IEEE-754 rounding.
-/

namespace Jason

/-- Little-endian byte list of the `n` low-order bytes of `v`
(`start[base+i] = len & 0xff; len >>= 8` in the source). -/
def leBytes : Nat → Nat → List Nat
  | 0, _ => []
  | n+1, v => v % 256 :: leBytes n (v / 256)

/-- Value of a little-endian byte list. -/
def leVal : List Nat → Nat
  | [] => 0
  | b :: bs => b + 256 * leVal bs

/-- Overwrite the bytes of `l` starting at index `i` with the list `vs`
(a sequence of indexed stores, as the finalize loop of parseString does). -/
def setBytes : List Nat → Nat → List Nat → List Nat
  | l, _, [] => l
  | l, i, v :: vs => setBytes (l.set i v) (i+1) vs

/-- Number of bytes needed to store `v` little-endian (at least one).  The
builder only ever encodes 64-bit magnitudes, so the table stops at 8. -/
def byteWidth (v : Nat) : Nat :=
  if v < 256 then 1
  else if v < 65536 then 2
  else if v < 16777216 then 3
  else if v < 4294967296 then 4
  else if v < 1099511627776 then 5
  else if v < 281474976710656 then 6
  else if v < 72057594037927936 then 7
  else 8

/-- Lexicographic byte-order comparison of two byte strings. -/
def lexLe : List Nat → List Nat → Bool
  | [], _ => true
  | _ :: _, [] => false
  | a :: as, c :: cs => if a < c then true else if c < a then false else lexLe as cs

/-- Container kinds tracked by the builder stack. -/
inductive CKind where
  | arrayC
  | objectC
deriving DecidableEq

/-- A builder stack entry: container kind, start offset of the container's
tag byte, and the child-start offsets (relative to `base`) reported so far. -/
structure Frame where
  kind : CKind
  base : Nat
  offsets : List Nat
deriving DecidableEq

/-- The JasonBuilder state visible to the parser: the output buffer (its
length is the builder's write position `_b._pos`; the source separately
tracks capacity, which has no observable effect and is not modelled), the
stack of open containers, and the copied-in options.  `doubles` records the
exact values passed to addDouble in order, since IEEE-754 bit patterns are
not modelled (the 8 payload bytes of a double are left as placeholders). -/
structure Builder where
  buf : List Nat
  doubles : List ℚ
  stack : List Frame
  sortKeys : Bool
deriving DecidableEq

/-- `_b._start[_b._pos++] = v`. -/
def Builder.pushByte (b : Builder) (v : Nat) : Builder :=
  { b with buf := b.buf ++ [v] }

/-- A sequence of `pushByte` stores. -/
def Builder.pushBytes (b : Builder) (vs : List Nat) : Builder :=
  { b with buf := b.buf ++ vs }

/-- Modelled from the spec: `clear` resets the write position to zero and
empties the container stack (JasonBuilder.h is not part of src/). -/
def Builder.clear (b : Builder) : Builder :=
  { b with buf := [], doubles := [], stack := [] }

/-- Modelled from the spec: addNull emits a fixed one-byte tag; the spec
leaves the exact scalar tag values open, this model fixes 0x18. -/
def Builder.addNull (b : Builder) : Builder := b.pushByte 0x18

/-- Modelled from the spec: addFalse emits a fixed one-byte tag (0x19 here). -/
def Builder.addFalse (b : Builder) : Builder := b.pushByte 0x19

/-- Modelled from the spec: addTrue emits a fixed one-byte tag (0x1a here). -/
def Builder.addTrue (b : Builder) : Builder := b.pushByte 0x1a

/-- Modelled from the spec: addDouble emits a one-byte tag followed by 8
payload bytes (IEEE 754 little-endian in the source).  The bit pattern is
not modelled; the exact value is recorded in `doubles` and 8 placeholder
bytes keep the layout. -/
def Builder.addDouble (b : Builder) (d : ℚ) : Builder :=
  { b with buf := b.buf ++ 0x1b :: List.replicate 8 0,
           doubles := b.doubles ++ [d] }

/-- Modelled from the spec: addUInt uses the dedicated small-int tag family
for small magnitudes and otherwise a minimal-width little-endian encoding
(tag 0x27 + width here; the spec leaves exact tags open). -/
def uintBytes (u : Nat) : List Nat :=
  if u ≤ 9 then [0x30 + u]
  else (0x27 + byteWidth u) :: leBytes (byteWidth u) u

/-- Modelled from the spec: addUInt (see `uintBytes`). -/
def Builder.addUInt (b : Builder) (u : Nat) : Builder := b.pushBytes (uintBytes u)

/-- Modelled from the spec: addNegInt takes the magnitude; small magnitudes
1..6 use the small negative-int tag family (0x3a..0x3f here), the rest a
minimal-width little-endian encoding with tag 0x1f + width. -/
def negIntBytes (u : Nat) : List Nat :=
  if 1 ≤ u ∧ u ≤ 6 then [0x40 - u]
  else (0x1f + byteWidth u) :: leBytes (byteWidth u) u

/-- Modelled from the spec: addNegInt (see `negIntBytes`). -/
def Builder.addNegInt (b : Builder) (u : Nat) : Builder := b.pushBytes (negIntBytes u)

/-- Modelled from the spec: addArray pushes a container frame capturing
`base = bufPos` and an empty child-offset list, then writes one placeholder
header byte (rewritten at close). -/
def Builder.addArray (b : Builder) : Builder :=
  { b with stack := ⟨CKind.arrayC, b.buf.length, []⟩ :: b.stack,
           buf := b.buf ++ [0] }

/-- Modelled from the spec: addObject, analogous to addArray. -/
def Builder.addObject (b : Builder) : Builder :=
  { b with stack := ⟨CKind.objectC, b.buf.length, []⟩ :: b.stack,
           buf := b.buf ++ [0] }

/-- Modelled from the spec: reportAdd appends `bufPos - base` to the current
container's child-offset list (before the child is parsed).  With an empty
stack it is a no-op; the parser only calls it with an open container. -/
def Builder.reportAdd (b : Builder) (base : Nat) : Builder :=
  match b.stack with
  | [] => b
  | f :: rest =>
    { b with stack := { f with offsets := f.offsets ++ [b.buf.length - base] } :: rest }

/-- Read the byte string of the (string) value starting at absolute offset
`idx` of `buf`: short strings carry their length in the tag, long strings in
the 8 bytes after the tag.  Used by object close for key sorting. -/
def keyBytesAt (buf : List Nat) (idx : Nat) : List Nat :=
  let t := buf.getD idx 0
  if 0x40 ≤ t ∧ t ≤ 0xbf then (buf.drop (idx+1)).take (t - 0x40)
  else if t = 0x0c then (buf.drop (idx+9)).take (leVal ((buf.drop (idx+1)).take 8))
  else []

/-- Insertion step of the key sort used at object close. -/
def insertByKey (key : Nat → List Nat) (x : Nat) : List Nat → List Nat
  | [] => [x]
  | y :: ys => if lexLe (key x) (key y) then x :: y :: ys else y :: insertByKey key x ys

/-- Insertion sort by key bytes (the spec does not require stability). -/
def sortByKey (key : Nat → List Nat) : List Nat → List Nat
  | [] => []
  | x :: xs => insertByKey key x (sortByKey key xs)

/-- Smallest of the widths 1/2/4/8 whose byte range fits `need w` (and the
child count, folded into `need` by the caller). -/
def pickWidth (need : Nat → Nat) : Nat :=
  if need 1 < 256 then 1
  else if need 2 < 65536 then 2
  else if need 4 < 4294967296 then 4
  else 8

/-- Modelled from the spec (§4.2 Close; JasonBuilder.h is not part of src/):
pop the top container frame and replace its placeholder header.  An empty
container gets a single-byte tag.  A non-empty array whose children all have
the same encoded length gets a compact header (tag + byte length, no index
table, tags 0x02/0x03/0x04/0x05 by width); otherwise arrays get tag +
byte length + child count + body + index table (tags 0x06..0x09).  Objects
always get an index table, sorted by key bytes when `sortKeys` is set
(sorted tags 0x0b/0x0d/0x0e/0x0f, unsorted 0x10..0x13).  The byte length and
the table entries are little-endian of the chosen width; children shift
forward by the growth of the header.  None of the claims under study
inspect the bytes of a non-empty container; this close is the spec's close
logic with concrete tag choices. -/
def Builder.close (b : Builder) : Builder :=
  match b.stack with
  | [] => b
  | f :: rest =>
    let hd := b.buf.take f.base
    let body := b.buf.drop (f.base + 1)
    if f.offsets.isEmpty then
      { b with stack := rest,
               buf := hd ++ (if f.kind = CKind.arrayC then 0x01 else 0x0a) :: body }
    else
      let n := f.offsets.length
      let endOffs := f.offsets.drop 1 ++ [b.buf.length - f.base]
      let lens := List.zipWith (fun a c => a - c) endOffs f.offsets
      let sameLen := lens.all (fun l => l = lens.headD 0)
      if f.kind = CKind.arrayC ∧ sameLen then
        let w := pickWidth (fun w => 1 + w + body.length)
        let bytelen := 1 + w + body.length
        let tag := if w = 1 then 0x02 else if w = 2 then 0x03 else if w = 4 then 0x04 else 0x05
        { b with stack := rest,
                 buf := hd ++ tag :: leBytes w bytelen ++ body }
      else
        let w := pickWidth (fun w => max (1 + 2*w + body.length + n*w) n)
        let bytelen := 1 + 2*w + body.length + n*w
        -- children move forward by the header growth (1 byte placeholder → 1 + 2w)
        let adjusted := f.offsets.map (fun o => o + 2*w)
        let table :=
          if f.kind = CKind.objectC ∧ b.sortKeys then
            sortByKey (fun o => keyBytesAt (hd ++ List.replicate (1 + 2*w) 0 ++ body) (f.base + o)) adjusted
          else adjusted
        let tag :=
          if f.kind = CKind.arrayC then
            (if w = 1 then 0x06 else if w = 2 then 0x07 else if w = 4 then 0x08 else 0x09)
          else if b.sortKeys then
            (if w = 1 then 0x0b else if w = 2 then 0x0d else if w = 4 then 0x0e else 0x0f)
          else
            (if w = 1 then 0x10 else if w = 2 then 0x11 else if w = 4 then 0x12 else 0x13)
        { b with stack := rest,
                 buf := hd ++ tag :: (leBytes w bytelen ++ leBytes w n ++ body
                          ++ (table.map (leBytes w)).flatten) }

/-- The parser state: the input byte range `_start/_size` (as a list), the
read cursor `_pos`, the builder `_b`, and the copied-in option
`sortAttributeNames` (the only JasonOptions field the core reads). -/
structure PState where
  input : List Nat
  pos : Nat
  b : Builder
  options : Bool
deriving DecidableEq

/-- Result of a parsing step: normal return (carrying the updated state),
a thrown JasonParserError (carrying the state at the throw, from which
`errorPos` is computed), the instrumented underflow of `unconsume`, or fuel
exhaustion (totality device only). -/
inductive Res (α : Type) where
  | ok (a : α) (s : PState)
  | thrown (msg : String) (s : PState)
  | uf (s : PState)
  | nofuel (s : PState)
deriving DecidableEq

/-- Sequencing: run the continuation on a normal return, propagate anything
else (C++ exceptions unwind; nothing in the parser catches). -/
def Res.andThen {α β : Type} : Res α → (α → PState → Res β) → Res β
  | .ok a s, f => f a s
  | .thrown m s, _ => .thrown m s
  | .uf s, _ => .uf s
  | .nofuel s, _ => .nofuel s

/-- Apply a builder operation to the state. -/
def withB (s : PState) (f : Builder → Builder) : PState := { s with b := f s.b }

/-- The byte at input index `i` (callers guard `i < _size`). -/
def byteAt (s : PState) (i : Nat) : Nat := s.input.getD i 0

/-- `peek`: byte at the cursor or -1 when exhausted. -/
def peek (s : PState) : Res Int :=
  if s.input.length ≤ s.pos then .ok (-1) s
  else .ok (byteAt s s.pos) s

/-- `consume`: byte at the cursor (advancing) or -1 when exhausted. -/
def consume (s : PState) : Res Int :=
  if s.input.length ≤ s.pos then .ok (-1) s
  else .ok (byteAt s s.pos) { s with pos := s.pos + 1 }

/-- `unconsume`: the source does an unchecked `--_pos` (a size_t); the model
returns the instrumented `uf` result when `_pos` is zero, so that the claim
that every invocation has `_pos > 0` is the statement that `uf` is never
returned. -/
def unconsume (s : PState) : Res Unit :=
  if s.pos = 0 then .uf s else .ok () { s with pos := s.pos - 1 }

/-- `errorPos()`: position at the time of the reported error. -/
def errorPos (s : PState) : Nat := if 0 < s.pos then s.pos - 1 else s.pos

/-- The four JSON whitespace bytes. -/
def isWhiteSpace (i : Nat) : Bool := i == 32 || i == 9 || i == 10 || i == 13

/-- Modelled from the spec: JSONSkipWhiteSpace (JasonAsm.h is not part of
src/) returns the number of leading whitespace bytes of the given range. -/
def wsCount : List Nat → Nat
  | [] => 0
  | c :: cs => if isWhiteSpace c then wsCount cs + 1 else 0

/-- `skipWhiteSpace(err)`: advance past whitespace and return the following
byte without consuming it; throw `err` when the input is exhausted. -/
def skipWhiteSpace (err : String) (s : PState) : Res Int :=
  let count := wsCount (s.input.drop s.pos)
  let s1 := { s with pos := s.pos + count }
  if s1.pos < s.input.length then .ok (byteAt s1 s1.pos) s1
  else .thrown err s1

/-- `getOneOrThrow(msg)`. -/
def getOneOrThrow (msg : String) (s : PState) : Res Int :=
  (consume s).andThen fun i s =>
  if i < 0 then .thrown msg s else .ok i s

/-- The number accumulator: an exact unsigned 64-bit magnitude until the
digit that would overflow, then a double.  `intValue` is a `uint64_t` in the
source; the guard in `addDigit` keeps it below 2^64, so plain `Nat`
arithmetic coincides with the machine arithmetic on every reachable path.
The double is modelled exactly (ℚ). -/
structure ParsedNumber where
  intValue : Nat
  doubleValue : ℚ
  isInteger : Bool
deriving DecidableEq

/-- The default-constructed accumulator. -/
def ParsedNumber.init : ParsedNumber := ⟨0, 0, true⟩

/-- `ParsedNumber::addDigit(int i)`: extend the integer accumulator unless
the extra digit would overflow 64 bits, in which case switch to the double
accumulator (and extend that).  The source then throws "numeric value out of
bounds" if the double became NaN or non-finite; with exact rationals that
condition is identically false and is omitted. -/
def ParsedNumber.addDigit (v : ParsedNumber) (i : Int) : ParsedNumber :=
  if v.isInteger then
    if v.intValue < 1844674407370955161 ∨
       (v.intValue = 1844674407370955161 ∧ i - 48 ≤ 5) then
      { v with intValue := v.intValue * 10 + (i - 48).toNat }
    else
      { v with doubleValue := (v.intValue : ℚ) * 10 + ((i - 48 : Int) : ℚ),
               isInteger := false }
  else
    { v with doubleValue := v.doubleValue * 10 + ((i - 48 : Int) : ℚ) }

/-- `ParsedNumber::asDouble()`. -/
def ParsedNumber.asDouble (v : ParsedNumber) : ℚ :=
  if v.isInteger then (v.intValue : ℚ) else v.doubleValue

/-- The loop of `scanDigits`: consume digits into the accumulator, put back
the first non-digit.  Fuel: one unit per consumed byte. -/
def scanDigitsLoop : Nat → ParsedNumber → PState → Res ParsedNumber
  | 0, _, s => .nofuel s
  | fuel+1, v, s =>
    (consume s).andThen fun i s =>
    if i < 0 then .ok v s
    else if i < 48 ∨ 57 < i then
      (unconsume s).andThen fun _ s => .ok v s
    else scanDigitsLoop fuel (v.addDigit i) s

/-- `scanDigits(value)`: run the loop with enough fuel for the remaining
input (each iteration consumes a byte, plus one terminating read). -/
def scanDigits (v : ParsedNumber) (s : PState) : Res ParsedNumber :=
  scanDigitsLoop (s.input.length + 1 - s.pos) v s

/-- The loop of `scanDigitsFractional`: positional weights 0.1, 0.01, …
(exact rationals; the source uses doubles). -/
def scanDigitsFractionalLoop : Nat → ℚ → ℚ → PState → Res ℚ
  | 0, _, _, s => .nofuel s
  | fuel+1, pot, x, s =>
    (consume s).andThen fun i s =>
    if i < 0 then .ok x s
    else if i < 48 ∨ 57 < i then
      (unconsume s).andThen fun _ s => .ok x s
    else scanDigitsFractionalLoop fuel (pot / 10) (x + pot * ((i - 48 : Int) : ℚ)) s

/-- `scanDigitsFractional()`. -/
def scanDigitsFractional (s : PState) : Res ℚ :=
  scanDigitsFractionalLoop (s.input.length + 1 - s.pos) (1/10) 0 s

/-- `pow(10, e)` from math.h for the digit-scanned exponent, which is always
a non-negative integer value; modelled exactly. -/
def qpow10 (e : ℚ) : ℚ := (10 : ℚ) ^ e.num.toNat

/-- `parseNumber()`: optional minus, integer part (with overflow promotion),
optional fraction introduced by '.', optional exponent introduced by e/E —
the exponent branch is reachable only after a fraction, exactly as in the
source.  The final non-finiteness check on the double cannot fire in the
exact-rational model and is omitted. -/
def parseNumber (s : PState) : Res Unit :=
  (consume s).andThen fun i s =>
  (if i = 45 then
     (getOneOrThrow "scanNumber: incomplete number" s).andThen fun i2 s =>
       .ok (i2, true) s
   else .ok (i, false) s).andThen fun p s =>
  let i := p.1
  let negative := p.2
  if i < 48 ∨ 57 < i then .thrown "value expected" s
  else
  (if i ≠ 48 then
     (unconsume s).andThen fun _ s => scanDigits ParsedNumber.init s
   else .ok ParsedNumber.init s).andThen fun numberValue s =>
  (consume s).andThen fun i s =>
  if i < 0 ∨ i ≠ 46 then
    (if 0 ≤ i then unconsume s else .ok () s).andThen fun _ s =>
    if numberValue.isInteger = false then .ok () (withB s (·.addDouble numberValue.doubleValue))
    else if negative then .ok () (withB s (·.addNegInt numberValue.intValue))
    else .ok () (withB s (·.addUInt numberValue.intValue))
  else
  (getOneOrThrow "scanNumber: incomplete number" s).andThen fun i s =>
  if i < 48 ∨ 57 < i then .thrown "scanNumber: incomplete number" s
  else
  (unconsume s).andThen fun _ s =>
  (scanDigitsFractional s).andThen fun frac s =>
  let fractionalPart := if negative then - numberValue.asDouble - frac
                        else numberValue.asDouble + frac
  (consume s).andThen fun i s =>
  if i < 0 then .ok () (withB s (·.addDouble fractionalPart))
  else if i ≠ 101 ∧ i ≠ 69 then
    (unconsume s).andThen fun _ s => .ok () (withB s (·.addDouble fractionalPart))
  else
  (getOneOrThrow "scanNumber: incomplete number" s).andThen fun i s =>
  (if i = 43 ∨ i = 45 then
     (getOneOrThrow "scanNumber: incomplete number" s).andThen fun i2 s =>
       .ok (i2, i == 45) s
   else .ok (i, false) s).andThen fun p s =>
  let i := p.1
  let negExp := p.2
  if i < 48 ∨ 57 < i then .thrown "scanNumber: incomplete number" s
  else
  (unconsume s).andThen fun _ s =>
  (scanDigits ParsedNumber.init s).andThen fun expo s =>
  let fp := if negExp then fractionalPart * (qpow10 expo.asDouble)⁻¹
            else fractionalPart * qpow10 expo.asDouble
  .ok () (withB s (·.addDouble fp))

/-- Modelled from the spec and the scalar fallback `fastStringCopy`
(src lines 371-381; the assembler JSONStringCopy of JasonAsm.h is not part
of src/): length of the longest prefix whose bytes are not `"` (0x22), not
`\` (0x5c) and not below 0x20.  The limit argument of the source call is the
whole remaining input, which never cuts this prefix short; the 256-byte
block cap of the scalar fallback is not observable (the copy loop re-runs)
and is not modelled. -/
def strCopyLen : List Nat → Nat
  | [] => 0
  | c :: cs => if c ≠ 34 ∧ c ≠ 92 ∧ 32 ≤ c then strCopyLen cs + 1 else 0

/-- One hex digit of a `\uXXXX` escape: `v := (v << 4) + digit`. -/
def scanHexDigit (v : Nat) (s : PState) : Res Nat :=
  (consume s).andThen fun i s =>
  if i < 0 then .thrown "scanString: Unfinished \\uXXXX." s
  else if 48 ≤ i ∧ i ≤ 57 then .ok (v * 16 + (i - 48).toNat) s
  else if 97 ≤ i ∧ i ≤ 102 then .ok (v * 16 + (i - 97).toNat + 10) s
  else if 65 ≤ i ∧ i ≤ 70 then .ok (v * 16 + (i - 65).toNat + 10) s
  else .thrown "scanString: Illegal hash digit." s

/-- The string-promotion check run after each read of the string loop: once
more than 127 payload bytes follow the tag, reserve 8 bytes, shift the
payload forward by 8 (`memmove(start+base+9, start+base+1, pos-(base+1))`)
and remember the promotion.  At the only call the payload has at least 128
bytes, so `pos ≥ base + 9` and the take/drop form is the exact move. -/
def promoCheck (base : Nat) (large : Bool) (s : PState) : Bool × PState :=
  if large = false ∧ 127 < s.b.buf.length - (base + 1) then
    (true, withB s (fun b => { b with buf := b.buf.take (base + 9) ++ b.buf.drop (base + 1) }))
  else (large, s)

/-- The follow-byte loop of a multi-byte UTF-8 sequence: each byte must
match 10xxxxxx and is emitted verbatim. -/
def readFollow : Nat → PState → Res Unit
  | 0, s => .ok () s
  | j+1, s =>
    (getOneOrThrow "scanString: truncated UTF-8 sequence" s).andThen fun i s =>
    if (i.toNat &&& 0xc0) ≠ 0x80 then .thrown "scanString: invalid UTF-8 sequence" s
    else readFollow j (withB s (·.pushByte i.toNat))

/-- The main loop of `parseString` (the build as shipped: JASON_VALIDATEUTF8
is not defined, so the fast bulk copy runs and the promotion check sits
between the read and the dispatch).  `base` is the offset of the tag byte,
`large` whether the string was promoted, `hs` the pending high surrogate
(0 when none). -/
def parseStringLoop : Nat → Nat → Bool → Nat → PState → Res Unit
  | 0, _, _, _, s => .nofuel s
  | fuel+1, base, large, hs, s =>
    -- fast path: bulk-copy plain bytes while at least 16 input bytes remain
    let s :=
      if 16 ≤ s.input.length - s.pos then
        let cnt := strCopyLen (s.input.drop s.pos)
        { s with pos := s.pos + cnt,
                 b := s.b.pushBytes ((s.input.drop s.pos).take cnt) }
      else s
    (getOneOrThrow "scanString: Unfinished string detected." s).andThen fun i s =>
    let pc := promoCheck base large s
    let large := pc.1
    let s := pc.2
    if i = 34 then
      -- closing quote: finalize the header
      if large = false then
        let len := s.b.buf.length - (base + 1)
        .ok () (withB s (fun b => { b with buf := b.buf.set base ((64 + len % 256) % 256) }))
      else
        let len := s.b.buf.length - (base + 9)
        .ok () (withB s (fun b =>
          { b with buf := setBytes (b.buf.set base 12) (base + 1) (leBytes 8 len) }))
    else if i = 92 then
      (consume s).andThen fun i s =>
      if i < 0 then .thrown "scanString: Unfinished string detected." s
      else if i = 34 ∨ i = 47 ∨ i = 92 then
        parseStringLoop fuel base large 0 (withB s (·.pushByte i.toNat))
      else if i = 98 then parseStringLoop fuel base large 0 (withB s (·.pushByte 8))
      else if i = 102 then parseStringLoop fuel base large 0 (withB s (·.pushByte 12))
      else if i = 110 then parseStringLoop fuel base large 0 (withB s (·.pushByte 10))
      else if i = 114 then parseStringLoop fuel base large 0 (withB s (·.pushByte 13))
      else if i = 116 then parseStringLoop fuel base large 0 (withB s (·.pushByte 9))
      else if i = 117 then
        (scanHexDigit 0 s).andThen fun v s =>
        (scanHexDigit v s).andThen fun v s =>
        (scanHexDigit v s).andThen fun v s =>
        (scanHexDigit v s).andThen fun v s =>
        if v < 0x80 then
          parseStringLoop fuel base large 0 (withB s (·.pushByte v))
        else if v < 0x800 then
          parseStringLoop fuel base large 0
            (withB s (·.pushBytes [0xc0 + v / 64, 0x80 + v % 64]))
        else if 0xdc00 ≤ v ∧ v < 0xe000 ∧ hs ≠ 0 then
          -- low surrogate: retract the high surrogate's 3 bytes, emit 4 bytes
          let v := 0x10000 + (hs - 0xd800) * 1024 + v - 0xdc00
          parseStringLoop fuel base large 0 (withB s (fun b =>
            { b with buf := b.buf.take (b.buf.length - 3) ++
                [0xf0 + v / 262144, 0x80 + v / 4096 % 64, 0x80 + v / 64 % 64, 0x80 + v % 64] }))
        else
          let hs2 := if 0xd800 ≤ v ∧ v < 0xdc00 then v else 0
          parseStringLoop fuel base large hs2
            (withB s (·.pushBytes [0xe0 + v / 4096, 0x80 + v / 64 % 64, 0x80 + v % 64]))
      else .thrown "scanString: Illegal \\ sequence." s
    else
      let n := i.toNat
      if n &&& 0x80 = 0 then
        if n < 0x20 then .thrown "scanString: Found control character." s
        else parseStringLoop fuel base large 0 (withB s (·.pushByte n))
      else if n &&& 0xe0 = 0x80 then .thrown "scanString: Illegal UTF-8 byte." s
      else if n &&& 0xe0 = 0xc0 then
        (readFollow 1 (withB s (·.pushByte n))).andThen fun _ s =>
        parseStringLoop fuel base large 0 s
      else if n &&& 0xf0 = 0xe0 then
        (readFollow 2 (withB s (·.pushByte n))).andThen fun _ s =>
        parseStringLoop fuel base large 0 s
      else if n &&& 0xf8 = 0xf0 then
        (readFollow 3 (withB s (·.pushByte n))).andThen fun _ s =>
        parseStringLoop fuel base large 0 s
      else .thrown "scanString: Illegal 5- or 6-byte sequence found in UTF-8 string." s

/-- `parseString()`: entered after the opening quote; write the short-string
placeholder tag 0x40 and run the loop (fuel: each iteration consumes at
least one input byte). -/
def parseString (s : PState) : Res Unit :=
  let base := s.b.buf.length
  let s := withB s (·.pushByte 64)
  parseStringLoop (s.input.length + 1 - s.pos) base false 0 s

/-- `parseTrue()`: after 't', require "rue". -/
def parseTrue (s : PState) : Res Unit :=
  (consume s).andThen fun i s =>
  if i ≠ 114 then .thrown "true expected" s else
  (consume s).andThen fun i s =>
  if i ≠ 117 then .thrown "true expected" s else
  (consume s).andThen fun i s =>
  if i ≠ 101 then .thrown "true expected" s else
  .ok () (withB s (·.addTrue))

/-- `parseFalse()`: after 'f', require "alse". -/
def parseFalse (s : PState) : Res Unit :=
  (consume s).andThen fun i s =>
  if i ≠ 97 then .thrown "false expected" s else
  (consume s).andThen fun i s =>
  if i ≠ 108 then .thrown "false expected" s else
  (consume s).andThen fun i s =>
  if i ≠ 115 then .thrown "false expected" s else
  (consume s).andThen fun i s =>
  if i ≠ 101 then .thrown "false expected" s else
  .ok () (withB s (·.addFalse))

/-- `parseNull()`: after 'n', require "ull". -/
def parseNull (s : PState) : Res Unit :=
  (consume s).andThen fun i s =>
  if i ≠ 117 then .thrown "null expected" s else
  (consume s).andThen fun i s =>
  if i ≠ 108 then .thrown "null expected" s else
  (consume s).andThen fun i s =>
  if i ≠ 108 then .thrown "null expected" s else
  .ok () (withB s (·.addNull))

mutual

/-- `parseJson()`: skip whitespace, dispatch on one byte. -/
def parseJson : Nat → PState → Res Unit
  | 0, s => .nofuel s
  | fuel+1, s =>
    (skipWhiteSpace "expecting item" s).andThen fun _ s =>
    (consume s).andThen fun i s =>
    if i < 0 then .ok () s
    else if i = 123 then parseObject fuel s
    else if i = 91 then parseArray fuel s
    else if i = 116 then parseTrue s
    else if i = 102 then parseFalse s
    else if i = 110 then parseNull s
    else if i = 34 then parseString s
    else (unconsume s).andThen fun _ s => parseNumber s

/-- `parseArray()`: entered after '['. -/
def parseArray : Nat → PState → Res Unit
  | 0, s => .nofuel s
  | fuel+1, s =>
    let base := s.b.buf.length
    let s := withB s (·.addArray)
    (skipWhiteSpace "scanArray: item or ] expected" s).andThen fun i s =>
    if i = 93 then .ok () (withB { s with pos := s.pos + 1 } (·.close))
    else parseArrayLoop fuel base s

/-- The element loop of `parseArray`. -/
def parseArrayLoop : Nat → Nat → PState → Res Unit
  | 0, _, s => .nofuel s
  | fuel+1, base, s =>
    let s := withB s (·.reportAdd base)
    (parseJson fuel s).andThen fun _ s =>
    (skipWhiteSpace "scanArray: , or ] expected" s).andThen fun i s =>
    if i = 93 then .ok () (withB { s with pos := s.pos + 1 } (·.close))
    else if i ≠ 44 then .thrown "scanArray: , or ] expected" s
    else parseArrayLoop fuel base { s with pos := s.pos + 1 }

/-- `parseObject()`: entered after '{'; the empty-object branch consumes the
closing brace through `consume` (as the source does). -/
def parseObject : Nat → PState → Res Unit
  | 0, s => .nofuel s
  | fuel+1, s =>
    let base := s.b.buf.length
    let s := withB s (·.addObject)
    (skipWhiteSpace "scanObject: item or \x7d expected" s).andThen fun i s =>
    if i = 125 then
      (consume s).andThen fun _ s => .ok () (withB s (·.close))
    else parseObjectLoop fuel base i s

/-- The member loop of `parseObject`; `i` is the byte returned by the last
whitespace skip. -/
def parseObjectLoop : Nat → Nat → Int → PState → Res Unit
  | 0, _, _, s => .nofuel s
  | fuel+1, base, i, s =>
    if i ≠ 34 then .thrown "scanObject: \" or \x7d expected" s
    else
    let s := { s with pos := s.pos + 1 }
    let s := withB s (·.reportAdd base)
    (parseString s).andThen fun _ s =>
    (skipWhiteSpace "scanObject: : expected" s).andThen fun i s =>
    if i ≠ 58 then .thrown "scanObject: : expected" s
    else
    let s := { s with pos := s.pos + 1 }
    (parseJson fuel s).andThen fun _ s =>
    (skipWhiteSpace "scanObject: , or \x7d expected" s).andThen fun i s =>
    if i = 125 then .ok () (withB { s with pos := s.pos + 1 } (·.close))
    else if i ≠ 44 then .thrown "scanObject: , or \x7d expected" s
    else
    let s := { s with pos := s.pos + 1 }
    (skipWhiteSpace "scanObject: \" or \x7d expected" s).andThen fun i s =>
    parseObjectLoop fuel base i s

end

/-- The top-level do-while of `parseInternal`: parse one value, count it,
skip trailing whitespace; without `multi` any leftover byte is consumed (for
error reporting) and "expecting EOF" is thrown; with `multi` continue while
input remains. -/
def parseLoop : Nat → Bool → Nat → PState → Res Nat
  | 0, _, _, s => .nofuel s
  | fuel+1, multi, nr, s =>
    (parseJson fuel s).andThen fun _ s =>
    let nr := nr + 1
    let s := { s with pos := s.pos + wsCount (s.input.drop s.pos) }
    if multi = false ∧ s.pos ≠ s.input.length then
      (consume s).andThen fun _ s => .thrown "expecting EOF" s
    else if multi ∧ s.pos < s.input.length then parseLoop fuel multi nr s
    else .ok nr s

/-- `parseInternal(multi)`: copy the options into the builder, skip an
optional UTF-8 BOM, run the top-level loop.  The fuel is a totality device;
every loop and every nesting level consumes input, so this budget is never
exhausted on any input. -/
def parseInternal (multi : Bool) (s : PState) : Res Nat :=
  let s := withB s (fun b => { b with sortKeys := s.options })
  let s :=
    if 3 ≤ s.input.length ∧ byteAt s 0 = 0xef ∧ byteAt s 1 = 0xbb ∧ byteAt s 2 = 0xbf
    then { s with pos := s.pos + 3 } else s
  parseLoop (8 * (s.input.length + 2)) multi 0 s

/-- `parse(json, multi)`: point the cursor at the new input, reset `_pos`,
clear the builder, and run `parseInternal`.  The previous contents of `p`
(cursor, builder) are overwritten; only the options survive. -/
def parse (json : List Nat) (multi : Bool) (p : PState) : Res Nat :=
  let s : PState := { input := json, pos := 0, b := p.b.clear, options := p.options }
  parseInternal multi s

/-- A freshly constructed parser (empty builder, default options). -/
def initParser : PState :=
  { input := [], pos := 0, b := ⟨[], [], [], true⟩, options := true }

/-- Parse from a fresh parser. -/
def runParse (json : List Nat) (multi : Bool) : Res Nat := parse json multi initParser

/-- The returned count of a successful parse. -/
def Res.count : Res Nat → Option Nat
  | .ok n _ => some n
  | _ => none

/-- The output bytes of a successful parse. -/
def Res.outBuf {α : Type} : Res α → Option (List Nat)
  | .ok _ s => some s.b.buf
  | _ => none

/-- The doubles emitted by a successful parse, in order (exact values). -/
def Res.outDoubles {α : Type} : Res α → Option (List ℚ)
  | .ok _ s => some s.b.doubles
  | _ => none

/-- Whether the result is a thrown JasonParserError with the given message,
reporting the given `errorPos()`. -/
def Res.isThrownWith {α : Type} (r : Res α) (msg : String) (p : Nat) : Bool :=
  match r with
  | .thrown m s => m == msg && errorPos s == p
  | _ => false

/-- Whether the result is the instrumented `unconsume` underflow. -/
def Res.noUf {α : Type} : Res α → Prop
  | .uf _ => False
  | _ => True

/-! Concrete inputs and states used by the theorems below. -/

/-- The bytes of the decimal literal 18446744073709551615 (2^64 - 1). -/
def bytesMax20 : List Nat := [49,56,52,52,54,55,52,52,48,55,51,55,48,57,53,53,49,54,49,53]

/-- The bytes of the decimal literal 18446744073709551616 (2^64). -/
def bytesOver20 : List Nat := [49,56,52,52,54,55,52,52,48,55,51,55,48,57,53,53,49,54,49,54]

/-- The bytes of the JSON text `"𝄞"`. -/
def bytesSurrogatePair : List Nat := [34,92,117,68,56,51,52,92,117,68,68,49,69,34]

/-- A string literal whose second byte is the stray continuation byte 0x80,
followed by 17 'a's, long enough that the bulk copier runs over it. -/
def bytesStray : List Nat := 34 :: 128 :: List.replicate 17 97 ++ [34]

/-- The bytes of the JSON text `"1e2"` (exponent, no fraction). -/
def bytesExp : List Nat := [49, 101, 50]

/-- The bytes of a string literal with the control byte 0x07 at index 3. -/
def bytesCtl : List Nat := [34, 97, 98, 7, 34]

/-- A parser state mid-way through other work: non-empty builder, stale
cursor, same (default) options as a fresh parser. -/
def dirtyParser : PState :=
  { input := [9, 9], pos := 5,
    b := ⟨[7, 7, 7], [1/2], [⟨CKind.arrayC, 0, [1]⟩], false⟩, options := true }

/-- State entering the string loop of the literal `"ab"` (quote consumed,
placeholder not yet written). -/
def strDemoState : PState :=
  { input := [97, 98, 34], pos := 0, b := ⟨[], [], [], true⟩, options := true }

/-- The state `parseString` leaves for `strDemoState`. -/
def strDemoDone : PState :=
  { input := [97, 98, 34], pos := 3, b := ⟨[66, 97, 98], [], [], true⟩, options := true }

/-- A state whose cursor sits on a control byte inside a string literal. -/
def ctlDemoState : PState :=
  { input := [34, 5, 34], pos := 1, b := ⟨[64], [], [], true⟩, options := true }

/-- A state whose cursor sits on a stray continuation byte (0x9f) with
fewer than 16 bytes of input remaining. -/
def strayDemoState : PState :=
  { input := [34, 159, 34], pos := 1, b := ⟨[64], [], [], true⟩, options := true }

/-- The shape of the builder buffer while the string loop runs: `pre` is the
buffer contents from before parseString, followed by the (still unpatched)
tag byte 0x40; once promoted, 8 stale bytes sit between the tag and the
payload, the payload has more than 127 bytes, and whenever a high surrogate
is pending (`hs ≠ 0`) its 3 bytes are the payload's tail. -/
def StrInv (pre : List Nat) (large : Bool) (hs : Nat) (b : Builder) : Prop :=
  match large with
  | false => ∃ payload : List Nat, b.buf = pre ++ 64 :: payload ∧ (hs ≠ 0 → 3 ≤ payload.length)
  | true => ∃ stale payload : List Nat, b.buf = pre ++ 64 :: (stale ++ payload) ∧
      stale.length = 8 ∧ 127 < payload.length ∧ (hs ≠ 0 → 3 ≤ payload.length)

/-! Theorems. -/

set_option maxRecDepth 100000
set_option maxHeartbeats 2000000

theorem Res.andThen_ok {α β : Type} (a : α) (s : PState) (f : α → PState → Res β) :
    (Res.ok a s).andThen f = f a s := rfl

theorem Res.andThen_thrown {α β : Type} (m : String) (s : PState) (f : α → PState → Res β) :
    (Res.thrown m s).andThen f = Res.thrown m s := rfl

/-- One multi-mode iteration of the top-level loop that is followed by
another value: the parsed value's end is `s1`, the whitespace skip lands on
`k`, and input remains. -/
theorem parseLoop_multi_step (fuel nr : Nat) (s s1 : PState) (k : Nat)
    (h : parseJson fuel s = Res.ok () s1)
    (hk : s1.pos + wsCount (s1.input.drop s1.pos) = k)
    (hlt : k < s1.input.length) :
    parseLoop (fuel+1) true nr s = parseLoop fuel true (nr+1) { s1 with pos := k } := by
  rw [parseLoop, h, Res.andThen_ok]
  simp only [hk]
  simp [hlt]

/-- The final multi-mode iteration of the top-level loop: after the
whitespace skip the cursor `k` reaches the end of the input. -/
theorem parseLoop_multi_last (fuel nr : Nat) (s s1 : PState) (k : Nat)
    (h : parseJson fuel s = Res.ok () s1)
    (hk : s1.pos + wsCount (s1.input.drop s1.pos) = k)
    (hge : ¬ k < s1.input.length) :
    parseLoop (fuel+1) true nr s = Res.ok (nr+1) { s1 with pos := k } := by
  rw [parseLoop, h, Res.andThen_ok]
  simp only [hk]
  simp [hge]

/-- Claim C1: the spec's number grammar (RFC 8259) makes the fractional part
and the exponent part independently optional, so "1e2" should parse to the
double 100 with count 1.  The code contradicts this: the exponent branch of
parseNumber sits behind the '.' branch, so on "1e2" the parser emits the
unsigned integer 1, stops in front of 'e', and (multi=false) fails with
"expecting EOF", reporting position 1 (the 'e'). -/
theorem exponent_without_fraction_is_rejected :
    (runParse bytesExp false).isThrownWith "expecting EOF" 1 = true ∧
    (runParse bytesExp false).count = none :=
  ⟨rfl, rfl⟩

/-- Claim C2 (counterexample): parsing the empty input with multi=true does
not succeed with count 0; it throws "expecting item" (the top-level loop is
a do-while and always parses at least one value). -/
theorem multi_empty_input_throws :
    (runParse [] true).isThrownWith "expecting item" 0 = true ∧
    (runParse [] true).count = none :=
  ⟨rfl, rfl⟩

/-- Claim C3: the integer accumulator promotes to double exactly at the
first digit `i` with value > 1844674407370955161, or equal and digit > 5;
hence 18446744073709551615 parses to an unsigned integer (its minimal-width
encoding) and 18446744073709551616 is emitted through addDouble (tag byte
0x1b). -/
theorem addDigit_threshold_and_uint64_boundary :
    (∀ (v : Nat) (q : ℚ) (i : Int), 48 ≤ i → i ≤ 57 →
      ((ParsedNumber.addDigit ⟨v, q, true⟩ i).isInteger = false ↔
        1844674407370955161 < v ∨ (v = 1844674407370955161 ∧ 5 < i - 48))) ∧
    (runParse bytesMax20 false).outBuf = some (uintBytes 18446744073709551615) ∧
    (runParse bytesOver20 false).outBuf = some (0x1b :: List.replicate 8 0) := by
  refine ⟨?_, rfl, rfl⟩
  intro v q i h1 h2
  by_cases hg : v < 1844674407370955161 ∨ (v = 1844674407370955161 ∧ i - 48 ≤ 5)
  · simp only [ParsedNumber.addDigit, hg]
    simp
    omega
  · simp only [ParsedNumber.addDigit, hg]
    simp
    omega

/-- Claim C3 witness: the threshold equivalence applied at the boundary
value and the digit '6'. -/
theorem addDigit_threshold_witness :
    (ParsedNumber.addDigit ⟨1844674407370955161, 0, true⟩ 54).isInteger = false ↔
      1844674407370955161 < 1844674407370955161 ∨
        (1844674407370955161 = 1844674407370955161 ∧ 5 < (54 : Int) - 48) :=
  addDigit_threshold_and_uint64_boundary.1 1844674407370955161 0 54 (by decide) (by decide)

/-- Claim C5: the string literal `"𝄞"` parses to a short string
of length 4 whose payload is exactly F0 9D 84 9E (the high surrogate's 3
bytes are retracted when the low surrogate arrives). -/
theorem surrogate_pair_emits_4_byte_utf8 :
    (runParse bytesSurrogatePair false).outBuf = some [0x44, 0xf0, 0x9d, 0x84, 0x9e] :=
  rfl

/-- Claim C6 (counterexample): a stray continuation byte (0x80) unescaped
inside a string literal does not make parsing fail when at least 16 input
bytes remain: the bulk copier treats it like any plain byte, and the parse
succeeds with the stray byte in the output payload. -/
theorem stray_continuation_bulk_copied_ok :
    runParse bytesStray false =
      Res.ok 1 { input := bytesStray, pos := 20,
                 b := ⟨82 :: 128 :: List.replicate 17 97, [], [], true⟩,
                 options := true } :=
  rfl

/-- Claim C9: each parse overload resets the read cursor and clears the
builder on entry, so the result of `parse` does not depend on the previous
cursor or builder contents — only on the input, the flag and the options
(which a run of parse never modifies). -/
theorem parse_depends_only_on_input (json : List Nat) (multi : Bool) (p1 p2 : PState)
    (h : p1.options = p2.options) :
    parse json multi p1 = parse json multi p2 := by
  simp only [parse, parseInternal, Builder.clear, withB, h]

/-- Claim C9 witness: a fresh parser and a parser holding stale state from
earlier work produce the identical result. -/
theorem parse_depends_only_on_input_witness :
    parse [49] false initParser = parse [49] false dirtyParser :=
  parse_depends_only_on_input [49] false initParser dirtyParser rfl

/-- Claim C10: in multi-value mode consecutive top-level values need no
separating whitespace: "01" parses as the two integers 0 and 1 (count 2)
and "1[]" parses as the integer 1 followed by the empty array (count 2). -/
theorem multi_values_need_no_separator :
    (runParse [48, 49] true).count = some 2 ∧
    (runParse [48, 49] true).outBuf = some (uintBytes 0 ++ uintBytes 1) ∧
    (runParse [49, 91, 93] true).count = some 2 ∧
    (runParse [49, 91, 93] true).outBuf = some (uintBytes 1 ++ [0x01]) := by
  have h0 : runParse [48, 49] true =
      parseLoop 32 true 0 { input := [48,49], pos := 0, b := ⟨[],[],[],true⟩, options := true } := rfl
  have h1 : parseJson 31 ({ input := [48,49], pos := 0, b := ⟨[],[],[],true⟩, options := true } : PState) =
      Res.ok () { input := [48,49], pos := 1, b := ⟨[48],[],[],true⟩, options := true } := rfl
  have h2 : parseJson 30 ({ input := [48,49], pos := 1, b := ⟨[48],[],[],true⟩, options := true } : PState) =
      Res.ok () { input := [48,49], pos := 2, b := ⟨[48,49],[],[],true⟩, options := true } := rfl
  have e1 := parseLoop_multi_step 31 0 _ _ 1 h1 (by decide) (by decide)
  have e2 := parseLoop_multi_last 30 1 _ _ 2 h2 (by decide) (by decide)
  have g0 : runParse [49, 91, 93] true =
      parseLoop 40 true 0 { input := [49,91,93], pos := 0, b := ⟨[],[],[],true⟩, options := true } := rfl
  have g1 : parseJson 39 ({ input := [49,91,93], pos := 0, b := ⟨[],[],[],true⟩, options := true } : PState) =
      Res.ok () { input := [49,91,93], pos := 1, b := ⟨[49],[],[],true⟩, options := true } := rfl
  have g2 : parseJson 38 ({ input := [49,91,93], pos := 1, b := ⟨[49],[],[],true⟩, options := true } : PState) =
      Res.ok () { input := [49,91,93], pos := 3, b := ⟨[49,1],[],[],true⟩, options := true } := rfl
  have f1 := parseLoop_multi_step 39 0 _ _ 1 g1 (by decide) (by decide)
  have f2 := parseLoop_multi_last 38 1 _ _ 3 g2 (by decide) (by decide)
  rw [h0, e1, g0, f1, e2, f2]
  exact ⟨rfl, rfl, rfl, rfl⟩

theorem wsCount_all (l : List Nat) (h : ∀ c ∈ l, isWhiteSpace c = true) :
    wsCount l = l.length := by
  induction l with
  | nil => rfl
  | cons c cs ih =>
    simp only [wsCount, h c (by simp), if_pos, List.length_cons]
    rw [ih (fun x hx => h x (by simp [hx]))]

/-- Claim C2 (amended): the top-level loop is a do-while, so for every input
consisting only of whitespace bytes (the empty input included) parse with
multi=true does not return 0 but throws "expecting item" from the whitespace
skip in front of the first value. -/
theorem multi_whitespace_only_throws (json : List Nat) (p : PState)
    (h : ∀ c ∈ json, isWhiteSpace c = true) :
    ∃ s1, parse json true p = Res.thrown "expecting item" s1 := by
  have hws : wsCount json = json.length := wsCount_all json h
  obtain ⟨m, hm⟩ : ∃ m, 8 * (json.length + 2) = (m + 1) + 1 :=
    ⟨8 * (json.length + 2) - 2, by omega⟩
  simp only [parse, parseInternal, withB, byteAt]
  have hcond : ¬ (3 ≤ json.length ∧ json.getD 0 0 = 239 ∧ json.getD 1 0 = 187 ∧
      json.getD 2 0 = 191) := by
    rintro ⟨h3, hef, -⟩
    cases json with
    | nil => simp at h3
    | cons c cs =>
      have hc := h c (by simp)
      simp only [List.getD_cons_zero] at hef
      simp only [isWhiteSpace, Bool.or_eq_true, beq_iff_eq] at hc
      omega
  rw [if_neg hcond, hm, parseLoop, parseJson]
  simp only [skipWhiteSpace, List.drop_zero, hws]
  rw [if_neg (by omega : ¬ (0 + json.length < json.length))]
  simp only [Res.andThen_thrown]
  exact ⟨_, rfl⟩

/-- Claim C2 witness: the amended statement at the two-byte whitespace input
[SP, TAB] from a fresh parser. -/
theorem multi_whitespace_only_throws_witness :
    ∃ s1, parse [32, 9] true initParser = Res.thrown "expecting item" s1 :=
  multi_whitespace_only_throws [32, 9] initParser (by decide)

theorem land_128_of_lt_32 (c : Nat) (h : c < 32) : c &&& 128 = 0 := by
  interval_cases c <;> rfl

theorem promoCheck_pos (base : Nat) (large : Bool) (s : PState) :
    (promoCheck base large s).2.pos = s.pos := by
  unfold promoCheck; split <;> rfl

/-- Claim C7: an unescaped byte below 0x20 at the cursor of the string loop
makes the parse fail with "scanString: Found control character.", and the
reported errorPos is exactly the input index of that byte; concretely,
parsing `"ab<0x07>"` fails with that message at position 3. -/
theorem control_char_in_string_errors :
    (∀ (fuel base : Nat) (large : Bool) (hs : Nat) (s : PState) (c : Nat),
      s.pos < s.input.length → byteAt s s.pos = c → c < 32 →
      ∃ s1, parseStringLoop (fuel+1) base large hs s =
          Res.thrown "scanString: Found control character." s1 ∧ errorPos s1 = s.pos) ∧
    (runParse bytesCtl false).isThrownWith "scanString: Found control character." 3 = true := by
  refine ⟨?_, rfl⟩
  intro fuel base large hs s c hpos hb hc
  have hdrop : s.input.drop s.pos = c :: s.input.drop (s.pos + 1) := by
    rw [List.drop_eq_getElem_cons hpos]
    rw [← List.getD_eq_getElem s.input 0 hpos, ← byteAt, hb]
  have hscl : strCopyLen (s.input.drop s.pos) = 0 := by
    rw [hdrop]
    simp only [strCopyLen]
    rw [if_neg (by omega)]
  simp only [parseStringLoop]
  have hbulk : (if 16 ≤ s.input.length - s.pos then
      { s with pos := s.pos + strCopyLen (s.input.drop s.pos),
               b := s.b.pushBytes ((s.input.drop s.pos).take (strCopyLen (s.input.drop s.pos))) }
      else s) = s := by
    split
    · simp [hscl, Builder.pushBytes]
    · rfl
  rw [hbulk]
  simp only [getOneOrThrow, consume]
  rw [if_neg (by omega : ¬ (s.input.length ≤ s.pos)), hb]
  simp only [Res.andThen_ok]
  rw [if_neg (by omega : ¬ ((c : Int) < 0))]
  simp only [Res.andThen_ok]
  rw [if_neg (by omega : ¬ ((c : Int) = 34)), if_neg (by omega : ¬ ((c : Int) = 92))]
  simp only [Int.toNat_natCast]
  rw [if_pos (land_128_of_lt_32 c hc), if_pos hc]
  exact ⟨_, rfl, by simp [errorPos, promoCheck_pos]⟩

/-- Claim C7 witness: the loop-level statement at a concrete state whose
cursor sits on the byte 0x05. -/
theorem control_char_in_string_errors_witness :
    ∃ s1, parseStringLoop 2 0 false 0 ctlDemoState =
        Res.thrown "scanString: Found control character." s1 ∧
        errorPos s1 = ctlDemoState.pos :=
  control_char_in_string_errors.1 1 0 false 0 ctlDemoState 5 (by decide) (by decide) (by decide)

theorem land_masks_stray_lo (c : Nat) (h1 : 128 ≤ c) (h2 : c ≤ 159) :
    c &&& 128 ≠ 0 ∧ c &&& 224 = 128 := by
  interval_cases c <;> exact ⟨by decide, rfl⟩

theorem land_masks_stray_hi (c : Nat) (h1 : 160 ≤ c) (h2 : c ≤ 191) :
    c &&& 128 ≠ 0 ∧ c &&& 224 ≠ 128 ∧ c &&& 224 ≠ 192 ∧ c &&& 240 ≠ 224 ∧
      c &&& 248 ≠ 240 := by
  interval_cases c <;> exact ⟨by decide, by decide, by decide, by decide, by decide⟩

/-- Claim C6 (amended): a stray continuation byte (10xxxxxx) unescaped at
the start of a character is rejected only when it reaches the byte-wise
loop, i.e. when fewer than 16 input bytes remain (otherwise the bulk copier
passes it through verbatim — see the counterexample).  Even then the mask
test `(i & 0xE0) == 0x80` only catches 0x80..0x9F with "Illegal UTF-8
byte."; the strays 0xA0..0xBF fall through to "Illegal 5- or 6-byte
sequence found in UTF-8 string.". -/
theorem stray_continuation_slow_path_errors (fuel base : Nat) (large : Bool) (hs : Nat)
    (s : PState) (c : Nat)
    (hpos : s.pos < s.input.length)
    (hrem : s.input.length - s.pos < 16)
    (hb : byteAt s s.pos = c)
    (h1 : 128 ≤ c) (h2 : c ≤ 191) :
    ∃ s1, parseStringLoop (fuel+1) base large hs s =
        Res.thrown (if c ≤ 159 then "scanString: Illegal UTF-8 byte."
          else "scanString: Illegal 5- or 6-byte sequence found in UTF-8 string.") s1 ∧
        errorPos s1 = s.pos := by
  simp only [parseStringLoop]
  rw [if_neg (by omega : ¬ (16 ≤ s.input.length - s.pos))]
  simp only [getOneOrThrow, consume]
  rw [if_neg (by omega : ¬ (s.input.length ≤ s.pos)), hb]
  simp only [Res.andThen_ok]
  rw [if_neg (by omega : ¬ ((c : Int) < 0))]
  simp only [Res.andThen_ok]
  rw [if_neg (by omega : ¬ ((c : Int) = 34)), if_neg (by omega : ¬ ((c : Int) = 92))]
  simp only [Int.toNat_natCast]
  by_cases hlo : c ≤ 159
  · obtain ⟨hm1, hm2⟩ := land_masks_stray_lo c h1 hlo
    rw [if_neg hm1, if_pos hm2, if_pos hlo]
    exact ⟨_, rfl, by simp [errorPos, promoCheck_pos]⟩
  · obtain ⟨hm1, hm2, hm3, hm4, hm5⟩ := land_masks_stray_hi c (by omega) h2
    rw [if_neg hm1, if_neg hm2, if_neg hm3, if_neg hm4, if_neg hm5, if_neg hlo]
    exact ⟨_, rfl, by simp [errorPos, promoCheck_pos]⟩

/-- Claim C6 witness: the amended statement at a concrete state whose
cursor sits on the stray byte 0x9F with 2 bytes remaining. -/
theorem stray_continuation_slow_path_errors_witness :
    ∃ s1, parseStringLoop 2 0 false 0 strayDemoState =
        Res.thrown (if 159 ≤ 159 then "scanString: Illegal UTF-8 byte."
          else "scanString: Illegal 5- or 6-byte sequence found in UTF-8 string.") s1 ∧
        errorPos s1 = strayDemoState.pos :=
  stray_continuation_slow_path_errors 1 0 false 0 strayDemoState 159
    (by decide) (by decide) (by decide) (by decide) (by decide)

theorem Res.noUf_andThen {α β : Type} {r : Res α} {f : α → PState → Res β}
    (h1 : r.noUf) (h2 : ∀ a s1, r = .ok a s1 → (f a s1).noUf) : (r.andThen f).noUf := by
  cases r <;> simp_all [Res.andThen, Res.noUf]

theorem consume_noUf (s : PState) : (consume s).noUf := by
  unfold consume; split <;> trivial

theorem consume_ok_pos {s : PState} {i : Int} {s1 : PState}
    (h : consume s = Res.ok i s1) (hi : ¬ i < 0) : 0 < s1.pos := by
  unfold consume at h
  split at h
  · cases h; omega
  · cases h; simp

theorem getOneOrThrow_noUf (m : String) (s : PState) : (getOneOrThrow m s).noUf := by
  refine Res.noUf_andThen (consume_noUf s) ?_
  intro a s1 _
  split <;> trivial

theorem getOneOrThrow_ok_pos {m : String} {s : PState} {i : Int} {s1 : PState}
    (h : getOneOrThrow m s = Res.ok i s1) : 0 < s1.pos := by
  unfold getOneOrThrow at h
  cases hc : consume s
  case ok a s2 =>
    rw [hc] at h
    simp only [Res.andThen] at h
    split at h
    · cases h
    · cases h
      exact consume_ok_pos hc (by assumption)
  case thrown m2 s2 => rw [hc] at h; simp only [Res.andThen] at h; cases h
  case uf s2 => rw [hc] at h; simp only [Res.andThen] at h; cases h
  case nofuel s2 => rw [hc] at h; simp only [Res.andThen] at h; cases h

theorem unconsume_noUf {s : PState} (h : 0 < s.pos) : (unconsume s).noUf := by
  unfold unconsume
  rw [if_neg (by omega)]
  trivial

theorem skipWhiteSpace_noUf (m : String) (s : PState) : (skipWhiteSpace m s).noUf := by
  simp only [skipWhiteSpace]; split <;> trivial

theorem scanHexDigit_noUf (v : Nat) (s : PState) : (scanHexDigit v s).noUf := by
  refine Res.noUf_andThen (consume_noUf s) ?_
  intro a s1 _
  split
  · trivial
  · split
    · trivial
    · split
      · trivial
      · split <;> trivial

theorem readFollow_noUf (k : Nat) (s : PState) : (readFollow k s).noUf := by
  induction k generalizing s with
  | zero => trivial
  | succ k ih =>
    refine Res.noUf_andThen (getOneOrThrow_noUf _ s) ?_
    intro a s1 _
    split
    · trivial
    · exact ih _

theorem scanDigitsLoop_noUf (fuel : Nat) (v : ParsedNumber) (s : PState) :
    (scanDigitsLoop fuel v s).noUf := by
  induction fuel generalizing v s with
  | zero => trivial
  | succ fuel ih =>
    refine Res.noUf_andThen (consume_noUf s) ?_
    intro i s1 hc
    split
    · trivial
    · split
      · refine Res.noUf_andThen (unconsume_noUf (consume_ok_pos hc (by omega))) ?_
        intro a s2 _
        trivial
      · exact ih _ _

theorem scanDigits_noUf (v : ParsedNumber) (s : PState) : (scanDigits v s).noUf :=
  scanDigitsLoop_noUf _ v s

theorem scanDigitsFractionalLoop_noUf (fuel : Nat) (pot x : ℚ) (s : PState) :
    (scanDigitsFractionalLoop fuel pot x s).noUf := by
  induction fuel generalizing pot x s with
  | zero => trivial
  | succ fuel ih =>
    refine Res.noUf_andThen (consume_noUf s) ?_
    intro i s1 hc
    split
    · trivial
    · split
      · refine Res.noUf_andThen (unconsume_noUf (consume_ok_pos hc (by omega))) ?_
        intro a s2 _
        trivial
      · exact ih _ _ _

theorem scanDigitsFractional_noUf (s : PState) : (scanDigitsFractional s).noUf :=
  scanDigitsFractionalLoop_noUf _ _ _ s


theorem getOneOrThrow_pair_pos {m : String} {s : PState} {g : Int → Bool}
    {p : Int × Bool} {s2 : PState}
    (h : ((getOneOrThrow m s).andThen fun i2 s => Res.ok (i2, g i2) s) = Res.ok p s2) :
    0 < s2.pos := by
  cases hg : getOneOrThrow m s <;> rw [hg] at h <;> simp only [Res.andThen] at h
  · cases h; exact getOneOrThrow_ok_pos hg
  · cases h
  · cases h
  · cases h

theorem parseNumber_noUf (s : PState) : (parseNumber s).noUf := by
  simp only [parseNumber]
  refine Res.noUf_andThen (consume_noUf s) ?_
  intro i s1 hc1
  refine Res.noUf_andThen ?_ ?_
  · split
    · refine Res.noUf_andThen (getOneOrThrow_noUf _ _) ?_
      intro a s2 _; trivial
    · trivial
  · intro p s2 hIF1
    split
    · trivial
    next hrange =>
    refine Res.noUf_andThen ?_ ?_
    · split
      · have hpos : 0 < s2.pos := by
          by_cases h45 : i = 45
          · rw [if_pos h45] at hIF1
            exact getOneOrThrow_pair_pos hIF1
          · rw [if_neg h45] at hIF1
            cases hIF1
            exact consume_ok_pos hc1 (by simp at hrange; omega)
        refine Res.noUf_andThen (unconsume_noUf hpos) ?_
        intro a s3 _
        exact scanDigits_noUf _ _
      · trivial
    · intro nv s3 hIF2
      refine Res.noUf_andThen (consume_noUf s3) ?_
      intro i2 s4 hc2
      split
      · refine Res.noUf_andThen ?_ ?_
        · split
          next h0le =>
            exact unconsume_noUf (consume_ok_pos hc2 (by omega))
          · trivial
        · intro a s5 _
          split
          · trivial
          · split <;> trivial
      · refine Res.noUf_andThen (getOneOrThrow_noUf _ _) ?_
        intro i3 s5 hg3
        split
        · trivial
        · refine Res.noUf_andThen (unconsume_noUf (getOneOrThrow_ok_pos hg3)) ?_
          intro a s6 _
          refine Res.noUf_andThen (scanDigitsFractional_noUf s6) ?_
          intro frac s7 _
          refine Res.noUf_andThen (consume_noUf s7) ?_
          intro i4 s8 hc4
          split
          · trivial
          next hi4 =>
          split
          · refine Res.noUf_andThen (unconsume_noUf (consume_ok_pos hc4 (by omega))) ?_
            intro a s9 _
            trivial
          · refine Res.noUf_andThen (getOneOrThrow_noUf _ _) ?_
            intro i5 s9 hg5
            refine Res.noUf_andThen ?_ ?_
            · split
              · refine Res.noUf_andThen (getOneOrThrow_noUf _ _) ?_
                intro a s10 _; trivial
              · trivial
            · intro p2 s10 hIF4
              split
              · trivial
              · have hpos2 : 0 < s10.pos := by
                  by_cases hsg : i5 = 43 ∨ i5 = 45
                  · rw [if_pos hsg] at hIF4
                    exact getOneOrThrow_pair_pos hIF4
                  · rw [if_neg hsg] at hIF4
                    cases hIF4
                    exact getOneOrThrow_ok_pos hg5
                refine Res.noUf_andThen (unconsume_noUf hpos2) ?_
                intro a s11 _
                refine Res.noUf_andThen (scanDigits_noUf _ _) ?_
                intro expo s12 _
                trivial


theorem parseTrue_noUf (s : PState) : (parseTrue s).noUf := by
  unfold parseTrue
  refine Res.noUf_andThen (consume_noUf s) ?_
  intro a s1 _
  split
  · trivial
  · refine Res.noUf_andThen (consume_noUf s1) ?_
    intro a s2 _
    split
    · trivial
    · refine Res.noUf_andThen (consume_noUf s2) ?_
      intro a s3 _
      split <;> trivial

theorem parseFalse_noUf (s : PState) : (parseFalse s).noUf := by
  unfold parseFalse
  refine Res.noUf_andThen (consume_noUf s) ?_
  intro a s1 _
  split
  · trivial
  · refine Res.noUf_andThen (consume_noUf s1) ?_
    intro a s2 _
    split
    · trivial
    · refine Res.noUf_andThen (consume_noUf s2) ?_
      intro a s3 _
      split
      · trivial
      · refine Res.noUf_andThen (consume_noUf s3) ?_
        intro a s4 _
        split <;> trivial

theorem parseNull_noUf (s : PState) : (parseNull s).noUf := by
  unfold parseNull
  refine Res.noUf_andThen (consume_noUf s) ?_
  intro a s1 _
  split
  · trivial
  · refine Res.noUf_andThen (consume_noUf s1) ?_
    intro a s2 _
    split
    · trivial
    · refine Res.noUf_andThen (consume_noUf s2) ?_
      intro a s3 _
      split <;> trivial

theorem parseStringLoop_noUf (fuel base : Nat) (large : Bool) (hs : Nat) (s : PState) :
    (parseStringLoop fuel base large hs s).noUf := by
  induction fuel generalizing base large hs s with
  | zero => trivial
  | succ fuel ih =>
    simp only [parseStringLoop]
    refine Res.noUf_andThen (getOneOrThrow_noUf _ _) ?_
    intro i s1 _
    generalize promoCheck base large s1 = pc
    obtain ⟨lg, s2⟩ := pc
    by_cases h34 : i = 34
    · rw [if_pos h34]
      split <;> trivial
    rw [if_neg h34]
    by_cases h92 : i = 92
    · rw [if_pos h92]
      refine Res.noUf_andThen (consume_noUf _) ?_
      intro i2 s3 _
      by_cases hneg : i2 < 0
      · rw [if_pos hneg]; trivial
      rw [if_neg hneg]
      by_cases hq : i2 = 34 ∨ i2 = 47 ∨ i2 = 92
      · rw [if_pos hq]; exact ih _ _ _ _
      rw [if_neg hq]
      by_cases hb : i2 = 98
      · rw [if_pos hb]; exact ih _ _ _ _
      rw [if_neg hb]
      by_cases hf : i2 = 102
      · rw [if_pos hf]; exact ih _ _ _ _
      rw [if_neg hf]
      by_cases hn : i2 = 110
      · rw [if_pos hn]; exact ih _ _ _ _
      rw [if_neg hn]
      by_cases hr : i2 = 114
      · rw [if_pos hr]; exact ih _ _ _ _
      rw [if_neg hr]
      by_cases ht : i2 = 116
      · rw [if_pos ht]; exact ih _ _ _ _
      rw [if_neg ht]
      by_cases hu : i2 = 117
      · rw [if_pos hu]
        refine Res.noUf_andThen (scanHexDigit_noUf _ _) ?_
        intro v1 t1 _
        refine Res.noUf_andThen (scanHexDigit_noUf _ _) ?_
        intro v2 t2 _
        refine Res.noUf_andThen (scanHexDigit_noUf _ _) ?_
        intro v3 t3 _
        refine Res.noUf_andThen (scanHexDigit_noUf _ _) ?_
        intro v t4 _
        by_cases hv1 : v < 128
        · rw [if_pos hv1]; exact ih _ _ _ _
        rw [if_neg hv1]
        by_cases hv2 : v < 2048
        · rw [if_pos hv2]; exact ih _ _ _ _
        rw [if_neg hv2]
        by_cases hv3 : 56320 ≤ v ∧ v < 57344 ∧ hs ≠ 0
        · rw [if_pos hv3]; exact ih _ _ _ _
        rw [if_neg hv3]
        exact ih _ _ _ _
      rw [if_neg hu]
      trivial
    rw [if_neg h92]
    by_cases hm0 : i.toNat &&& 128 = 0
    · rw [if_pos hm0]
      split
      · trivial
      · exact ih _ _ _ _
    rw [if_neg hm0]
    by_cases hm1 : i.toNat &&& 224 = 128
    · rw [if_pos hm1]; trivial
    rw [if_neg hm1]
    by_cases hm2 : i.toNat &&& 224 = 192
    · rw [if_pos hm2]
      refine Res.noUf_andThen (readFollow_noUf _ _) ?_
      intro a t1 _
      exact ih _ _ _ _
    rw [if_neg hm2]
    by_cases hm3 : i.toNat &&& 240 = 224
    · rw [if_pos hm3]
      refine Res.noUf_andThen (readFollow_noUf _ _) ?_
      intro a t1 _
      exact ih _ _ _ _
    rw [if_neg hm3]
    by_cases hm4 : i.toNat &&& 248 = 240
    · rw [if_pos hm4]
      refine Res.noUf_andThen (readFollow_noUf _ _) ?_
      intro a t1 _
      exact ih _ _ _ _
    rw [if_neg hm4]
    trivial

theorem parseString_noUf (s : PState) : (parseString s).noUf := by
  simp only [parseString]
  exact parseStringLoop_noUf _ _ _ _ _

theorem parseAll_noUf (fuel : Nat) :
    (∀ s, (parseJson fuel s).noUf) ∧ (∀ s, (parseArray fuel s).noUf) ∧
    (∀ base s, (parseArrayLoop fuel base s).noUf) ∧ (∀ s, (parseObject fuel s).noUf) ∧
    (∀ base i s, (parseObjectLoop fuel base i s).noUf) := by
  induction fuel with
  | zero =>
    exact ⟨fun s => trivial, fun s => trivial, fun b s => trivial, fun s => trivial,
      fun b i s => trivial⟩
  | succ fuel ih =>
    obtain ⟨ihJ, ihA, ihAL, ihO, ihOL⟩ := ih
    refine ⟨?_, ?_, ?_, ?_, ?_⟩
    · intro s
      simp only [parseJson]
      refine Res.noUf_andThen (skipWhiteSpace_noUf _ _) ?_
      intro a s1 _
      refine Res.noUf_andThen (consume_noUf _) ?_
      intro i s2 hc
      split
      · trivial
      · split
        · exact ihO _
        · split
          · exact ihA _
          · split
            · exact parseTrue_noUf _
            · split
              · exact parseFalse_noUf _
              · split
                · exact parseNull_noUf _
                · split
                  · exact parseString_noUf _
                  · refine Res.noUf_andThen (unconsume_noUf (consume_ok_pos hc (by assumption))) ?_
                    intro a s3 _
                    exact parseNumber_noUf _
    · intro s
      simp only [parseArray]
      refine Res.noUf_andThen (skipWhiteSpace_noUf _ _) ?_
      intro i s1 _
      split
      · trivial
      · exact ihAL _ _
    · intro base s
      simp only [parseArrayLoop]
      refine Res.noUf_andThen (ihJ _) ?_
      intro a s1 _
      refine Res.noUf_andThen (skipWhiteSpace_noUf _ _) ?_
      intro i s2 _
      split
      · trivial
      · split
        · trivial
        · exact ihAL _ _
    · intro s
      simp only [parseObject]
      refine Res.noUf_andThen (skipWhiteSpace_noUf _ _) ?_
      intro i s1 _
      split
      · refine Res.noUf_andThen (consume_noUf _) ?_
        intro a s2 _
        trivial
      · exact ihOL _ _ _
    · intro base i s
      simp only [parseObjectLoop]
      split
      · trivial
      · refine Res.noUf_andThen (parseString_noUf _) ?_
        intro a s1 _
        refine Res.noUf_andThen (skipWhiteSpace_noUf _ _) ?_
        intro i2 s2 _
        split
        · trivial
        · refine Res.noUf_andThen (ihJ _) ?_
          intro a s3 _
          refine Res.noUf_andThen (skipWhiteSpace_noUf _ _) ?_
          intro i3 s4 _
          split
          · trivial
          · split
            · trivial
            · refine Res.noUf_andThen (skipWhiteSpace_noUf _ _) ?_
              intro i4 s5 _
              exact ihOL _ _ _

theorem parseLoop_noUf (fuel : Nat) (multi : Bool) (nr : Nat) (s : PState) :
    (parseLoop fuel multi nr s).noUf := by
  induction fuel generalizing nr s with
  | zero => trivial
  | succ fuel ih =>
    simp only [parseLoop]
    refine Res.noUf_andThen ((parseAll_noUf fuel).1 s) ?_
    intro a s1 _
    split
    · refine Res.noUf_andThen (consume_noUf _) ?_
      intro a s2 _
      trivial
    · split
      · exact ih _ _
      · trivial

/-- Claim C8: during every call to parse, every invocation of unconsume
happens with pos > 0 (each is preceded by a consume or getOneOrThrow that
advanced the cursor): the instrumented underflow result `Res.uf`, which
`unconsume` returns exactly when `_pos` is 0, is never the outcome of
`parse`, for any input, flag and prior state. -/
theorem parse_never_underflows (json : List Nat) (multi : Bool) (p : PState) :
    (parse json multi p).noUf := by
  simp only [parse, parseInternal, withB]
  split <;> exact parseLoop_noUf _ _ _ _

theorem take_append_len {α : Type} (xs ys : List α) (n : Nat) :
    (xs ++ ys).take (xs.length + n) = xs ++ ys.take n := by
  induction xs with
  | nil => simp
  | cons a as ih =>
    have h : as.length + 1 + n = (as.length + n) + 1 := by omega
    simp only [List.cons_append, List.length_cons, h, List.take_succ_cons, ih]

theorem drop_append_len {α : Type} (xs ys : List α) (n : Nat) :
    (xs ++ ys).drop (xs.length + n) = ys.drop n := by
  induction xs with
  | nil => simp
  | cons a as ih =>
    have h : as.length + 1 + n = (as.length + n) + 1 := by omega
    simp only [List.cons_append, List.length_cons, h, List.drop_succ_cons, ih]

theorem set_append_len {α : Type} (xs zs : List α) (y v : α) :
    (xs ++ y :: zs).set xs.length v = xs ++ v :: zs := by
  induction xs with
  | nil => rfl
  | cons a as ih => simp [List.set, ih]

theorem setBytes_append (xs ys zs vs : List Nat) (h : vs.length = ys.length) :
    setBytes (xs ++ ys ++ zs) xs.length vs = xs ++ vs ++ zs := by
  induction vs generalizing xs ys with
  | nil =>
    cases ys with
    | nil => simp [setBytes]
    | cons y ys2 => simp at h
  | cons v vs ih =>
    cases ys with
    | nil => simp at h
    | cons y ys2 =>
      simp only [setBytes]
      have h1 : (xs ++ (y :: ys2) ++ zs).set xs.length v = xs ++ (v :: ys2) ++ zs := by
        have h2 := set_append_len xs (ys2 ++ zs) y v
        simp only [List.append_assoc] at h2 ⊢
        exact h2
      rw [h1]
      have h2 : xs ++ (v :: ys2) ++ zs = (xs ++ [v]) ++ ys2 ++ zs := by simp
      rw [h2]
      have h3 := ih (xs ++ [v]) ys2 (by simpa using h)
      simpa using h3

theorem strInv_append {pre : List Nat} {lg : Bool} {hs : Nat} {b : Builder} (vs : List Nat)
    (h : StrInv pre lg hs b) : StrInv pre lg hs { b with buf := b.buf ++ vs } := by
  cases lg <;> simp only [StrInv] at *
  · obtain ⟨p, hb, hl⟩ := h
    refine ⟨p ++ vs, by simp [hb], fun hne => ?_⟩
    have := hl hne
    simp only [List.length_append]
    omega
  · obtain ⟨st, p, hb, h1, h2, hl⟩ := h
    refine ⟨st, p ++ vs, by simp [hb], h1, ?_, fun hne => ?_⟩
    · simp only [List.length_append]; omega
    · have := hl hne
      simp only [List.length_append]
      omega

theorem strInv_hs0 {pre : List Nat} {lg : Bool} {hs : Nat} {b : Builder}
    (h : StrInv pre lg hs b) : StrInv pre lg 0 b := by
  cases lg <;> simp only [StrInv] at *
  · obtain ⟨p, hb, -⟩ := h
    exact ⟨p, hb, by simp⟩
  · obtain ⟨st, p, hb, h1, h2, -⟩ := h
    exact ⟨st, p, hb, h1, h2, by simp⟩

theorem strInv_append3 {pre : List Nat} {lg : Bool} {hs : Nat} {b : Builder}
    (x y z hs2 : Nat) (h : StrInv pre lg hs b) :
    StrInv pre lg hs2 { b with buf := b.buf ++ [x, y, z] } := by
  cases lg <;> simp only [StrInv] at *
  · obtain ⟨p, hb, -⟩ := h
    refine ⟨p ++ [x, y, z], by simp [hb], fun _ => ?_⟩
    simp only [List.length_append, List.length_cons, List.length_nil]
    omega
  · obtain ⟨st, p, hb, h1, h2, -⟩ := h
    refine ⟨st, p ++ [x, y, z], by simp [hb], h1, ?_, fun _ => ?_⟩
    · simp only [List.length_append]; omega
    · simp only [List.length_append, List.length_cons, List.length_nil]
      omega

theorem strInv_retract {pre : List Nat} {lg : Bool} {hs : Nat} {b : Builder}
    (ws : List Nat) (hws : ws.length = 4) (hhs : hs ≠ 0) (h : StrInv pre lg hs b) :
    StrInv pre lg 0 { b with buf := b.buf.take (b.buf.length - 3) ++ ws } := by
  cases lg <;> simp only [StrInv] at *
  · obtain ⟨p, hb, hl⟩ := h
    have hp3 : 3 ≤ p.length := hl hhs
    refine ⟨p.take (p.length - 3) ++ ws, ?_, by simp⟩
    rw [hb]
    have hlen : (pre ++ 64 :: p).length - 3 = pre.length + (1 + (p.length - 3)) := by
      simp only [List.length_append, List.length_cons]
      omega
    rw [hlen, take_append_len]
    have : (64 :: p).take (1 + (p.length - 3)) = 64 :: p.take (p.length - 3) := by
      have h1 : 1 + (p.length - 3) = (p.length - 3) + 1 := by omega
      rw [h1, List.take_succ_cons]
    rw [this]
    simp
  · obtain ⟨st, p, hb, h1, h2, hl⟩ := h
    refine ⟨st, p.take (p.length - 3) ++ ws, ?_, h1, ?_, by simp⟩
    · rw [hb]
      have hlen : (pre ++ 64 :: (st ++ p)).length - 3 =
          pre.length + (1 + (st.length + (p.length - 3))) := by
        simp only [List.length_append, List.length_cons]
        omega
      rw [hlen, take_append_len]
      have hx : (64 :: (st ++ p)).take (1 + (st.length + (p.length - 3))) =
          64 :: (st ++ p).take (st.length + (p.length - 3)) := by
        have h3 : 1 + (st.length + (p.length - 3)) = (st.length + (p.length - 3)) + 1 := by omega
        rw [h3, List.take_succ_cons]
      rw [hx, take_append_len]
      simp
    · have hp3 : 3 ≤ p.length := hl hhs
      simp only [List.length_append, List.length_take, hws]
      omega

theorem promoCheck_strInv (base : Nat) (large : Bool) (hs : Nat) (s : PState)
    (pre : List Nat) (hpre : pre.length = base) (hinv : StrInv pre large hs s.b) :
    StrInv pre (promoCheck base large s).1 hs (promoCheck base large s).2.b ∧
    ((promoCheck base large s).1 = false →
      (promoCheck base large s).2.b.buf.length - (base + 1) ≤ 127) := by
  unfold promoCheck
  split
  case isTrue hcnd =>
    obtain ⟨hlf, hlen⟩ := hcnd
    subst hlf
    simp only [StrInv] at hinv
    obtain ⟨p, hb, hl⟩ := hinv
    have hplen : 127 < p.length := by
      rw [hb] at hlen
      simp only [List.length_append, List.length_cons] at hlen
      omega
    constructor
    · simp only [StrInv, withB]
      refine ⟨p.take 8, p, ?_, by simp only [List.length_take]; omega, hplen,
        fun _ => by omega⟩
      rw [hb]
      have h9 : base + 9 = pre.length + 9 := by omega
      have h1b : base + 1 = pre.length + 1 := by omega
      rw [h9, h1b, take_append_len, drop_append_len]
      have h95 : (64 :: p).take 9 = 64 :: p.take 8 := List.take_succ_cons
      have h15 : (64 :: p).drop 1 = p := List.drop_succ_cons
      rw [h95, h15]
      simp
    · intro hff
      cases hff
  case isFalse hcnd =>
    refine ⟨hinv, fun hlf => ?_⟩
    subst hlf
    simp only [not_and, not_lt] at hcnd
    exact hcnd trivial

theorem leBytes_length (n v : Nat) : (leBytes n v).length = n := by
  induction n generalizing v with
  | zero => rfl
  | succ n ih => simp [leBytes, ih]

theorem consume_b {s : PState} {i : Int} {s1 : PState} (h : consume s = Res.ok i s1) :
    s1.b = s.b := by
  unfold consume at h
  split at h <;> cases h <;> rfl

theorem getOneOrThrow_b {m : String} {s : PState} {i : Int} {s1 : PState}
    (h : getOneOrThrow m s = Res.ok i s1) : s1.b = s.b := by
  unfold getOneOrThrow at h
  cases hc : consume s <;> rw [hc] at h <;> simp only [Res.andThen] at h
  · split at h
    · cases h
    · cases h
      exact consume_b hc
  · cases h
  · cases h
  · cases h

theorem scanHexDigit_b {v : Nat} {s : PState} {v1 : Nat} {s1 : PState}
    (h : scanHexDigit v s = Res.ok v1 s1) : s1.b = s.b := by
  unfold scanHexDigit at h
  cases hc : consume s <;> rw [hc] at h <;> simp only [Res.andThen] at h
  · split at h
    · cases h
    · split at h
      · cases h; exact consume_b hc
      · split at h
        · cases h; exact consume_b hc
        · split at h
          · cases h; exact consume_b hc
          · cases h
  · cases h
  · cases h
  · cases h

theorem strInv_buf_congr {pre : List Nat} {lg : Bool} {hs : Nat} {b b2 : Builder}
    (h : StrInv pre lg hs b) (hb : b2.buf = b.buf) : StrInv pre lg hs b2 := by
  cases lg <;> simp only [StrInv] at * <;> rw [hb] <;> exact h

theorem readFollow_buf : ∀ (k : Nat) {s : PState} {a : Unit} {s1 : PState},
    readFollow k s = Res.ok a s1 → ∃ ex, s1.b.buf = s.b.buf ++ ex := by
  intro k
  induction k with
  | zero =>
    intro s a s1 h
    cases h
    exact ⟨[], by simp⟩
  | succ k ih =>
    intro s a s1 h
    simp only [readFollow] at h
    cases hg : getOneOrThrow "scanString: truncated UTF-8 sequence" s <;> rw [hg] at h <;>
      simp only [Res.andThen] at h
    case ok i t =>
      split at h
      · cases h
      · obtain ⟨ex, hex⟩ := ih h
        refine ⟨i.toNat :: ex, ?_⟩
        rw [hex]
        simp only [withB, Builder.pushByte]
        rw [getOneOrThrow_b hg]
        simp
    case thrown => cases h
    case uf => cases h
    case nofuel => cases h

theorem parseStringLoop_shape (fuel : Nat) :
    ∀ (base : Nat) (large : Bool) (hs : Nat) (s s1 : PState) (pre : List Nat),
    pre.length = base →
    StrInv pre large hs s.b →
    parseStringLoop fuel base large hs s = Res.ok () s1 →
    ∃ payload : List Nat,
      (s1.b.buf = pre ++ (64 + payload.length) :: payload ∧ payload.length ≤ 127) ∨
      (s1.b.buf = pre ++ 12 :: (leBytes 8 payload.length ++ payload) ∧
        128 ≤ payload.length) := by
  induction fuel with
  | zero =>
    intro base large hs s s1 pre hpre hinv h
    cases h
  | succ fuel ih =>
    intro base large hs s s1 pre hpre hinv h
    simp only [parseStringLoop] at h
    set S : PState := (if 16 ≤ s.input.length - s.pos then
        { s with pos := s.pos + strCopyLen (s.input.drop s.pos),
                 b := s.b.pushBytes ((s.input.drop s.pos).take (strCopyLen (s.input.drop s.pos))) }
        else s) with hSd
    have hSinv : StrInv pre large hs S.b := by
      rw [hSd]
      split
      · exact strInv_append _ hinv
      · exact hinv
    clear hSd hinv
    cases hg : getOneOrThrow "scanString: Unfinished string detected." S <;> rw [hg] at h <;>
      simp only [Res.andThen] at h
    case thrown => cases h
    case uf => cases h
    case nofuel => cases h
    case ok i S1 =>
    have hS1inv : StrInv pre large hs S1.b := strInv_buf_congr hSinv (by rw [getOneOrThrow_b hg])
    have hp := promoCheck_strInv base large hs S1 pre hpre hS1inv
    set pc := promoCheck base large S1 with hpc
    obtain ⟨hpInv, hpSmall⟩ := hp
    clear hpc hS1inv hSinv
    by_cases h34 : i = 34
    · rw [if_pos h34] at h
      by_cases hlg : pc.1 = false
      · -- short-string finalize
        rw [if_pos hlg] at h
        cases h
        rw [hlg] at hpInv
        simp only [StrInv] at hpInv
        obtain ⟨p, hb, -⟩ := hpInv
        have hlen : pc.2.b.buf.length = pre.length + 1 + p.length := by
          rw [hb]; simp; omega
        have hsmall : pc.2.b.buf.length - (base + 1) ≤ 127 := hpSmall hlg
        have hple : p.length ≤ 127 := by omega
        have htag : (64 + (pc.2.b.buf.length - (base + 1)) % 256) % 256 = 64 + p.length := by
          have : pc.2.b.buf.length - (base + 1) = p.length := by omega
          rw [this]
          omega
        refine ⟨p, Or.inl ⟨?_, hple⟩⟩
        simp only [withB]
        rw [htag, hb, ← hpre, set_append_len]
      · -- long-string finalize
        rw [if_neg hlg] at h
        cases h
        have hlg2 : pc.1 = true := by
          cases hq : pc.1
          · exact absurd hq hlg
          · rfl
        rw [hlg2] at hpInv
        simp only [StrInv] at hpInv
        obtain ⟨st, p, hb, hst, hp127, -⟩ := hpInv
        have hlen : pc.2.b.buf.length = pre.length + 1 + 8 + p.length := by
          rw [hb]; simp [hst]
          omega
        have hlenval : pc.2.b.buf.length - (base + 9) = p.length := by omega
        refine ⟨p, Or.inr ⟨?_, by omega⟩⟩
        simp only [withB]
        rw [hlenval, hb, ← hpre, set_append_len]
        have hassoc : pre ++ 12 :: (st ++ p) = (pre ++ [12]) ++ st ++ p := by simp
        rw [hassoc]
        have hsb := setBytes_append (pre ++ [12]) st p (leBytes 8 p.length)
          (by rw [leBytes_length, hst])
        have hidx : pre.length + 1 = (pre ++ [12]).length := by simp
        rw [hidx, hsb]
        simp
    · rw [if_neg h34] at h
      by_cases h92 : i = 92
      · rw [if_pos h92] at h
        cases hc : consume pc.2 <;> rw [hc] at h <;> simp only [Res.andThen] at h
        rotate_left
        · cases h
        · cases h
        · cases h
        rename_i i2 S3
        have hS3inv : StrInv pre pc.1 hs S3.b := strInv_buf_congr hpInv (by rw [consume_b hc])
        by_cases hneg : i2 < 0
        · rw [if_pos hneg] at h; cases h
        rw [if_neg hneg] at h
        by_cases hq : i2 = 34 ∨ i2 = 47 ∨ i2 = 92
        · rw [if_pos hq] at h
          exact ih base pc.1 0 _ s1 pre hpre (strInv_hs0 (strInv_append _ hS3inv)) h
        rw [if_neg hq] at h
        by_cases hb8 : i2 = 98
        · rw [if_pos hb8] at h
          exact ih base pc.1 0 _ s1 pre hpre (strInv_hs0 (strInv_append _ hS3inv)) h
        rw [if_neg hb8] at h
        by_cases hf : i2 = 102
        · rw [if_pos hf] at h
          exact ih base pc.1 0 _ s1 pre hpre (strInv_hs0 (strInv_append _ hS3inv)) h
        rw [if_neg hf] at h
        by_cases hn : i2 = 110
        · rw [if_pos hn] at h
          exact ih base pc.1 0 _ s1 pre hpre (strInv_hs0 (strInv_append _ hS3inv)) h
        rw [if_neg hn] at h
        by_cases hr : i2 = 114
        · rw [if_pos hr] at h
          exact ih base pc.1 0 _ s1 pre hpre (strInv_hs0 (strInv_append _ hS3inv)) h
        rw [if_neg hr] at h
        by_cases ht : i2 = 116
        · rw [if_pos ht] at h
          exact ih base pc.1 0 _ s1 pre hpre (strInv_hs0 (strInv_append _ hS3inv)) h
        rw [if_neg ht] at h
        by_cases hu : i2 = 117
        · rw [if_pos hu] at h
          cases hh1 : scanHexDigit 0 S3 <;> rw [hh1] at h <;> simp only [Res.andThen] at h
          rotate_left
          · cases h
          · cases h
          · cases h
          rename_i v1 T1
          cases hh2 : scanHexDigit v1 T1 <;> rw [hh2] at h <;> simp only [Res.andThen] at h
          rotate_left
          · cases h
          · cases h
          · cases h
          rename_i v2 T2
          cases hh3 : scanHexDigit v2 T2 <;> rw [hh3] at h <;> simp only [Res.andThen] at h
          rotate_left
          · cases h
          · cases h
          · cases h
          rename_i v3 T3
          cases hh4 : scanHexDigit v3 T3 <;> rw [hh4] at h <;> simp only [Res.andThen] at h
          rotate_left
          · cases h
          · cases h
          · cases h
          rename_i v T4
          have hT4inv : StrInv pre pc.1 hs T4.b := strInv_buf_congr hS3inv
            (by rw [scanHexDigit_b hh4, scanHexDigit_b hh3, scanHexDigit_b hh2,
                    scanHexDigit_b hh1])
          by_cases hv1 : v < 128
          · rw [if_pos hv1] at h
            exact ih base pc.1 0 _ s1 pre hpre (strInv_hs0 (strInv_append _ hT4inv)) h
          rw [if_neg hv1] at h
          by_cases hv2 : v < 2048
          · rw [if_pos hv2] at h
            exact ih base pc.1 0 _ s1 pre hpre (strInv_hs0 (strInv_append _ hT4inv)) h
          rw [if_neg hv2] at h
          by_cases hv3 : 56320 ≤ v ∧ v < 57344 ∧ hs ≠ 0
          · rw [if_pos hv3] at h
            refine ih base pc.1 0 _ s1 pre hpre ?_ h
            exact strInv_retract _ rfl hv3.2.2 hT4inv
          rw [if_neg hv3] at h
          exact ih base pc.1 _ _ s1 pre hpre (strInv_append3 _ _ _ _ hT4inv) h
        rw [if_neg hu] at h
        cases h
      · rw [if_neg h92] at h
        by_cases hm0 : i.toNat &&& 128 = 0
        · rw [if_pos hm0] at h
          by_cases hctl : i.toNat < 32
          · rw [if_pos hctl] at h; cases h
          rw [if_neg hctl] at h
          exact ih base pc.1 0 _ s1 pre hpre (strInv_hs0 (strInv_append _ hpInv)) h
        rw [if_neg hm0] at h
        by_cases hm1 : i.toNat &&& 224 = 128
        · rw [if_pos hm1] at h; cases h
        rw [if_neg hm1] at h
        by_cases hm2 : i.toNat &&& 224 = 192
        · rw [if_pos hm2] at h
          cases hrf : readFollow 1 (withB pc.2 (·.pushByte i.toNat)) <;> rw [hrf] at h <;>
            simp only [Res.andThen] at h
          rotate_left
          · cases h
          · cases h
          · cases h
          rename_i a S4
          obtain ⟨ex, hex⟩ := readFollow_buf _ hrf
          refine ih base pc.1 0 _ s1 pre hpre ?_ h
          refine strInv_buf_congr (strInv_hs0 (strInv_append (i.toNat :: ex) hpInv)) ?_
          rw [hex]
          simp [withB, Builder.pushByte]
        rw [if_neg hm2] at h
        by_cases hm3 : i.toNat &&& 240 = 224
        · rw [if_pos hm3] at h
          cases hrf : readFollow 2 (withB pc.2 (·.pushByte i.toNat)) <;> rw [hrf] at h <;>
            simp only [Res.andThen] at h
          rotate_left
          · cases h
          · cases h
          · cases h
          rename_i a S4
          obtain ⟨ex, hex⟩ := readFollow_buf _ hrf
          refine ih base pc.1 0 _ s1 pre hpre ?_ h
          refine strInv_buf_congr (strInv_hs0 (strInv_append (i.toNat :: ex) hpInv)) ?_
          rw [hex]
          simp [withB, Builder.pushByte]
        rw [if_neg hm3] at h
        by_cases hm4 : i.toNat &&& 248 = 240
        · rw [if_pos hm4] at h
          cases hrf : readFollow 3 (withB pc.2 (·.pushByte i.toNat)) <;> rw [hrf] at h <;>
            simp only [Res.andThen] at h
          rotate_left
          · cases h
          · cases h
          · cases h
          rename_i a S4
          obtain ⟨ex, hex⟩ := readFollow_buf _ hrf
          refine ih base pc.1 0 _ s1 pre hpre ?_ h
          refine strInv_buf_congr (strInv_hs0 (strInv_append (i.toNat :: ex) hpInv)) ?_
          rw [hex]
          simp [withB, Builder.pushByte]
        rw [if_neg hm4] at h
        cases h

/-- Claim C4: whenever parseString returns, the bytes it appended to the
builder are exactly one of the two string layouts: payload length L ≤ 127
gives the tag byte 0x40+L followed by the L payload bytes (1+L bytes in
total), and L ≥ 128 (the string promoted mid-emission, 8 bytes inserted
after the tag and the payload shifted forward) gives tag 0x0c, an 8-byte
little-endian L, then the payload (9+L bytes in total). -/
theorem parseString_layout (s s1 : PState) (h : parseString s = Res.ok () s1) :
    ∃ payload : List Nat,
      (s1.b.buf = s.b.buf ++ (64 + payload.length) :: payload ∧ payload.length ≤ 127) ∨
      (s1.b.buf = s.b.buf ++ 12 :: (leBytes 8 payload.length ++ payload) ∧
        128 ≤ payload.length) := by
  simp only [parseString] at h
  refine parseStringLoop_shape _ _ _ _ _ _ _ rfl ?_ h
  simp only [StrInv, withB, Builder.pushByte]
  exact ⟨[], by simp, by simp⟩

/-- Claim C4 witness: the layout statement at the concrete two-byte string
literal `ab"` entered with an empty builder. -/
theorem parseString_layout_witness :
    ∃ payload : List Nat,
      (strDemoDone.b.buf = strDemoState.b.buf ++ (64 + payload.length) :: payload ∧
        payload.length ≤ 127) ∨
      (strDemoDone.b.buf = strDemoState.b.buf ++ 12 :: (leBytes 8 payload.length ++ payload) ∧
        128 ≤ payload.length) :=
  parseString_layout strDemoState strDemoDone rfl

end Jason
